import Mathlib

/-!
Verification of the pnpm lockfile isolation module
(`src/deploy/functions/isolate/lockfile.ts`).

JS strings are Lean `String`s, JS records (objects used as string-keyed
maps, and ES `Map`s) are association lists in insertion order, JS `Set`s
of strings are duplicate-free lists in insertion order, and Node's posix
path algebra (`path.relative`, `path.join`) is modelled on segment lists,
with the ambient process working directory passed explicitly as `cwd`.
-/

namespace LockfileVerif

/-- JS `String.prototype.startsWith`, modelled on character lists. -/
def strStartsWith (s p : String) : Bool :=
  p.data.isPrefixOf s.data

/-- Membership test on a list of strings (JS `Set.has` / key lookup). -/
def listHas : List String → String → Bool
  | [], _ => false
  | a :: rest, s => a == s || listHas rest s

/-- Split a character list at `'/'` (model of `String.split("/")` /
`path` segment decomposition). -/
def splitSegsAux : List Char → List Char → List (List Char)
  | [], cur => [cur.reverse]
  | c :: cs, cur =>
    if c = '/' then cur.reverse :: splitSegsAux cs []
    else splitSegsAux cs (c :: cur)

/-- Path segments of a string, split on `'/'`. -/
def splitSegs (p : String) : List String :=
  (splitSegsAux p.data []).map (fun cs => String.mk cs)

/-- Join path segments with `'/'`. -/
def joinSegs : List String → String
  | [] => ""
  | [s] => s
  | s :: rest => s ++ "/" ++ joinSegs rest

/-- One step of posix path normalization: drop empty and `"."` segments,
resolve `".."` against the segments accumulated so far (at the root of an
absolute path a `".."` is dropped). -/
def normStep (isAbs : Bool) (acc : List String) (s : String) : List String :=
  if s == "" || s == "." then acc
  else if s == ".." then
    match acc.getLast? with
    | some l => if l == ".." then acc ++ [".."] else acc.dropLast
    | none => if isAbs then acc else acc ++ [".."]
  else acc ++ [s]

/-- Posix path-segment normalization (the segment part of Node's
`path.normalize`/`path.resolve`). -/
def normSegs (isAbs : Bool) (segs : List String) : List String :=
  segs.foldl (normStep isAbs) []

/-- Node posix `path.normalize` on a string (trailing-slash preservation,
irrelevant to directory paths here, is not modelled). -/
def normalizeString (p : String) : String :=
  if p == "" then "."
  else
    let isAbs := strStartsWith p "/"
    let segs := normSegs isAbs (splitSegs p)
    if isAbs then "/" ++ joinSegs segs
    else if segs.isEmpty then "." else joinSegs segs

/-- Node posix `path.join` restricted to two arguments, as used by the
source (`path.join(a, b)`): concatenate with `'/'` and normalize. -/
def pathJoin (a b : String) : String :=
  if a == "" then
    if b == "" then "." else normalizeString b
  else if b == "" then normalizeString a
  else normalizeString (a ++ "/" ++ b)

/-- Node posix `path.resolve` of one path against the process working
directory `cwd` (an absolute path), returned as a normalized segment
list. -/
def resolveSegs (cwd p : String) : List String :=
  if strStartsWith p "/" then normSegs true (splitSegs p)
  else normSegs true (splitSegs (cwd ++ "/" ++ p))

/-- Length of the common prefix of two segment lists. -/
def commonPrefixLen : List String → List String → Nat
  | a :: as, b :: bs => if a = b then commonPrefixLen as bs + 1 else 0
  | _, _ => 0

/-- Node posix `path.relative(fromDir, toDir)`: resolve both against
`cwd`, drop the common prefix, go up once per remaining `fromDir`
segment, then down the remaining `toDir` segments.  Equal paths yield
`""`. -/
def pathRelative (cwd fromDir toDir : String) : String :=
  let f := resolveSegs cwd fromDir
  let t := resolveSegs cwd toDir
  let k := commonPrefixLen f t
  joinSegs (List.replicate (f.length - k) ".." ++ t.drop k)

/-- `getRelativePath` (lockfile.ts:31-37): `path.relative` with a `"./"`
prepended whenever the raw result does not already start with `"."`. -/
def getRelativePath (cwd fromDir toDir : String) : String :=
  let relativePath := pathRelative cwd fromDir toDir
  if !strStartsWith relativePath "." then "./" ++ relativePath
  else relativePath

/-- `safeName` (lockfile.ts:71,117,129):
`depName.replace(/^@/, "").replace(/\//g, "-")` — strip a single leading
`'@'`, then replace every `'/'` with `'-'`. -/
def safeName (depName : String) : String :=
  let stripped : List Char :=
    match depName.data with
    | '@' :: rest => rest
    | other => other
  String.mk (stripped.map (fun c => if c = '/' then '-' else c))

/-- A JS object used as a string-keyed map (or an ES `Map`), as its entry
list in insertion order; keys are unique in any value produced by the JS
runtime. -/
abbrev Record (α : Type) := List (String × α)

/-- The key list of a record, in iteration order. -/
def recordKeys {α : Type} (r : Record α) : List String :=
  r.map Prod.fst

/-- JS property read `r[k]` (`undefined` ↦ `none`). -/
def recordGet {α : Type} (r : Record α) (k : String) : Option α :=
  (r.find? (fun p => p.1 == k)).map Prod.snd

/-- JS property write `r[k] = v` / `Map.set`: update in place if the key
exists, else append. -/
def recordSet {α : Type} (r : Record α) (k : String) (v : α) : Record α :=
  if listHas (recordKeys r) k then
    r.map (fun p => if p.1 == k then (k, v) else p)
  else r ++ [(k, v)]

/-- `DependencyEntry` (lockfile.ts:14-17). -/
structure DependencyEntry where
  specifier : String
  version : String
deriving DecidableEq

/-- `RewriteContext` (lockfile.ts:26-29). -/
structure RewriteContext where
  outputDir : String
  workspacesDir : String
deriving DecidableEq

/-- A workspace package descriptor as consumed by the pruner: only its
`rootRelativeDir` field is read. -/
structure WorkspacePackage where
  rootRelativeDir : String
deriving DecidableEq

/-- Modelled from the spec: `WorkspaceRegistry` (`./types`, not under
`src/`) is consumed purely through `registry.get(name)` returning a
package descriptor or absence, so it is embedded as a lookup function. -/
abbrev WorkspaceRegistry := String → Option WorkspacePackage

/-- `ImporterData` (lockfile.ts:19-24): the three dependency categories
plus an open bag of unknown extra fields (values drawn from an arbitrary
type `U`). -/
structure ImporterData (U : Type) where
  dependencies : Option (Record DependencyEntry) := none
  devDependencies : Option (Record DependencyEntry) := none
  optionalDependencies : Option (Record DependencyEntry) := none
  extra : Record U := []
deriving DecidableEq

/-- `lockfileVersion: string | number` (lockfile.ts:8): an opaque token
whose constructor records the JS dynamic type. -/
inductive LockVersion where
  | str (s : String)
  | num (n : Int)
deriving DecidableEq

/-- `PnpmLockfile` (lockfile.ts:7-12): the named fields plus an open bag
of unknown top-level fields.  The JS object invariant that the `extra`
keys are distinct from the three named fields is stated as a hypothesis
where a theorem depends on it. -/
structure PnpmLockfile (U : Type) where
  lockfileVersion : LockVersion
  importers : Option (Record (ImporterData U)) := none
  packages : Option (Record U) := none
  extra : Record U := []
deriving DecidableEq

/-- `readPnpmLockfile` (lockfile.ts:42-56): the filesystem and the YAML
codec are external, so the existence check, the file content and the
parser are parameters.  A missing file returns `null`; a parser throw is
caught, logged at debug level, and also returns `null`. -/
def readPnpmLockfile {U : Type} (fileOnDisk : Bool) (content : String)
    (parseYaml : String → Except String (PnpmLockfile U)) :
    Option (PnpmLockfile U) :=
  if !fileOnDisk then none
  else
    match parseYaml content with
    | .ok lf => some lf
    | .error _ => none

/-- `rewriteImporterDependencies` (lockfile.ts:58-83), translated
statement by statement: absent input stays absent; otherwise fold the
entries into a fresh record, replacing an entry exactly when its name is
in `internalDeps` and its specifier starts with `workspace:`. -/
def rewriteImporterDependencies (cwd : String)
    (deps : Option (Record DependencyEntry)) (internalDeps : List String)
    (importerOutputDir workspacesDir : String) :
    Option (Record DependencyEntry) :=
  match deps with
  | none => none
  | some ds =>
    some <| ds.foldl (fun result p =>
      if listHas internalDeps p.1 && strStartsWith p.2.specifier "workspace:" then
        recordSet result p.1
          { specifier := "file:" ++ getRelativePath cwd importerOutputDir
              (pathJoin workspacesDir (safeName p.1))
            version := "link:" ++ getRelativePath cwd importerOutputDir
              (pathJoin workspacesDir (safeName p.1)) }
      else
        recordSet result p.1 p.2) []

/-- The per-entry rewrite rule that `rewriteImporterDependencies` applies
(used to state its specification). -/
def rewriteEntry (cwd : String) (internalDeps : List String)
    (importerOutputDir workspacesDir : String)
    (p : String × DependencyEntry) : String × DependencyEntry :=
  if listHas internalDeps p.1 && strStartsWith p.2.specifier "workspace:" then
    (p.1,
      { specifier := "file:" ++ getRelativePath cwd importerOutputDir
          (pathJoin workspacesDir (safeName p.1))
        version := "link:" ++ getRelativePath cwd importerOutputDir
          (pathJoin workspacesDir (safeName p.1)) })
  else p

/-- `relevantDirs` construction (lockfile.ts:103-109): the target
directory plus the `rootRelativeDir` of every registry-resolvable
internal dependency, as a JS `Set` (insertion order, deduplicated). -/
def buildRelevantDirs (targetRelativeDir : String) (internalDeps : List String)
    (registry : WorkspaceRegistry) : List String :=
  internalDeps.foldl (fun dirs depName =>
    match registry depName with
    | some pkg =>
      if listHas dirs pkg.rootRelativeDir then dirs
      else dirs ++ [pkg.rootRelativeDir]
    | none => dirs) [targetRelativeDir]

/-- `importerPathToOutputDir` construction (lockfile.ts:111-121). -/
def buildOutputDirTable (ctx : RewriteContext) (targetRelativeDir : String)
    (internalDeps : List String) (registry : WorkspaceRegistry) :
    Record String :=
  internalDeps.foldl (fun tbl depName =>
    match registry depName with
    | some pkg =>
      recordSet tbl pkg.rootRelativeDir (pathJoin ctx.workspacesDir (safeName depName))
    | none => tbl) (recordSet [] targetRelativeDir ctx.outputDir)

/-- `importerPathToNewPath` construction (lockfile.ts:123-133). -/
def buildNewPathTable (targetRelativeDir : String)
    (internalDeps : List String) (registry : WorkspaceRegistry) :
    Record String :=
  internalDeps.foldl (fun tbl depName =>
    match registry depName with
    | some pkg =>
      recordSet tbl pkg.rootRelativeDir ("workspaces/" ++ safeName depName)
    | none => tbl) (recordSet [] targetRelativeDir ".")

/-- The rewrite branch of the importer loop (lockfile.ts:145-163): a
shallow copy of the importer with its three dependency categories
independently rewritten. -/
def rewriteImporter {U : Type} (cwd : String) (data : ImporterData U)
    (internalDeps : List String) (importerOutputDir workspacesDir : String) :
    ImporterData U :=
  { data with
    dependencies :=
      rewriteImporterDependencies cwd data.dependencies internalDeps
        importerOutputDir workspacesDir
    devDependencies :=
      rewriteImporterDependencies cwd data.devDependencies internalDeps
        importerOutputDir workspacesDir
    optionalDependencies :=
      rewriteImporterDependencies cwd data.optionalDependencies internalDeps
        importerOutputDir workspacesDir }

/-- The importer loop of `pruneLockfile` (lockfile.ts:103-169).  The
guard `rewriteContext && importerOutputDir` is JS truthiness: it fails
when the looked-up output directory is absent or the empty string. -/
def pruneImporters {U : Type} (cwd : String) (importers : Record (ImporterData U))
    (targetRelativeDir : String) (internalDeps : List String)
    (registry : WorkspaceRegistry) (rewriteContext : Option RewriteContext) :
    Record (ImporterData U) :=
  let relevantDirs := buildRelevantDirs targetRelativeDir internalDeps registry
  let outputDirTable :=
    match rewriteContext with
    | some ctx => buildOutputDirTable ctx targetRelativeDir internalDeps registry
    | none => []
  let newPathTable :=
    match rewriteContext with
    | some _ => buildNewPathTable targetRelativeDir internalDeps registry
    | none => []
  importers.foldl (fun pruned p =>
    if p.1 == "." && !(targetRelativeDir == ".") then pruned
    else if listHas relevantDirs p.1 then
      let importerOutputDir := recordGet outputDirTable p.1
      let newImporterPath := (recordGet newPathTable p.1).getD p.1
      match rewriteContext, importerOutputDir with
      | some ctx, some outDir =>
        if outDir == "" then recordSet pruned newImporterPath p.2
        else
          recordSet pruned newImporterPath
            (rewriteImporter cwd p.2 internalDeps outDir ctx.workspacesDir)
      | _, _ => recordSet pruned newImporterPath p.2
    else pruned) []

/-- `pruneLockfile` (lockfile.ts:88-182). -/
def pruneLockfile {U : Type} (cwd : String) (lockfile : PnpmLockfile U)
    (targetRelativeDir : String) (internalDeps : List String)
    (registry : WorkspaceRegistry) (rewriteContext : Option RewriteContext) :
    PnpmLockfile U :=
  match lockfile.importers with
  | none => lockfile
  | some importers =>
    { lockfileVersion := lockfile.lockfileVersion
      importers := some (pruneImporters cwd importers targetRelativeDir
        internalDeps registry rewriteContext)
      packages := lockfile.packages
      extra := lockfile.extra.filter (fun p =>
        !(listHas ["lockfileVersion", "importers", "packages"] p.1)) }

/-! ### Basic lemmas about the JS collection model -/

theorem listHas_iff {l : List String} {s : String} : listHas l s = true ↔ s ∈ l := by
  induction l with
  | nil => simp [listHas]
  | cons a rest ih =>
    simp only [listHas, Bool.or_eq_true, beq_iff_eq, ih, List.mem_cons]
    exact or_congr ⟨Eq.symm, Eq.symm⟩ Iff.rfl

theorem listHas_eq_false_iff {l : List String} {s : String} :
    listHas l s = false ↔ s ∉ l := by
  rw [← Bool.not_eq_true, listHas_iff]

theorem recordKeys_append {α : Type} (r s : Record α) :
    recordKeys (r ++ s) = recordKeys r ++ recordKeys s := by
  simp [recordKeys]

theorem mem_recordKeys_iff {α : Type} {r : Record α} {s : String} :
    s ∈ recordKeys r ↔ ∃ x ∈ r, x.1 = s := by
  simp [recordKeys, List.mem_map]

theorem recordKeys_map_set {α : Type} (k : String) (v : α) (r : Record α) :
    recordKeys (r.map (fun p => if p.1 == k then (k, v) else p)) = recordKeys r := by
  simp only [recordKeys, List.map_map]
  apply List.map_congr_left
  intro p _
  by_cases hpk : p.1 = k
  · simp [Function.comp, hpk]
  · simp [Function.comp, hpk]

theorem recordKeys_recordSet {α : Type} (r : Record α) (k : String) (v : α) :
    recordKeys (recordSet r k v) =
      if listHas (recordKeys r) k then recordKeys r else recordKeys r ++ [k] := by
  unfold recordSet
  by_cases h : listHas (recordKeys r) k
  · rw [if_pos h, if_pos h, recordKeys_map_set]
  · rw [if_neg h, if_neg h, recordKeys_append]
    rfl

theorem recordSet_of_not_has {α : Type} {r : Record α} {k : String} (v : α)
    (h : listHas (recordKeys r) k = false) : recordSet r k v = r ++ [(k, v)] := by
  simp [recordSet, h]

theorem mem_recordSet {α : Type} {r : Record α} {k : String} {v : α} {x : String × α}
    (hx : x ∈ recordSet r k v) : x ∈ r ∨ x = (k, v) := by
  unfold recordSet at hx
  by_cases h : listHas (recordKeys r) k
  · simp [h] at hx
    obtain ⟨a, b, hab, hx⟩ := hx
    by_cases hak : a = k
    · simp [hak] at hx
      exact Or.inr hx.symm
    · simp [hak] at hx
      exact Or.inl (hx ▸ hab)
  · simp [h, List.mem_append] at hx
    rcases hx with hx | hx
    · exact Or.inl hx
    · exact Or.inr (by simp [hx])

theorem recordGet_nil {α : Type} (k : String) : recordGet ([] : Record α) k = none := rfl

theorem recordGet_of_has {α : Type} :
    ∀ {r : Record α} {k : String}, listHas (recordKeys r) k = true →
      ∃ v, recordGet r k = some v ∧ (k, v) ∈ r := by
  intro r
  induction r with
  | nil => intro k h; simp [recordKeys, listHas] at h
  | cons p r ih =>
    intro k h
    by_cases hpk : p.1 = k
    · subst hpk
      refine ⟨p.2, ?_, ?_⟩
      · simp [recordGet]
      · exact List.mem_cons_self _ _
    · have h' : listHas (recordKeys r) k = true := by
        simpa [recordKeys, listHas, hpk] using h
      obtain ⟨v, hv, hmem⟩ := ih h'
      refine ⟨v, ?_, List.mem_cons_of_mem _ hmem⟩
      simpa [recordGet, List.find?_cons_of_neg, hpk] using hv

/-- Elements produced by a left fold all satisfy `P`, given that every
step preserves it (the step may consult a property `Q` of the list
elements). -/
theorem foldl_forall_mem {α β : Type} (f : List α → β → List α) (P : α → Prop)
    (Q : β → Prop)
    (hf : ∀ acc b, Q b → (∀ x ∈ acc, P x) → ∀ x ∈ f acc b, P x) :
    ∀ (l : List β) (acc : List α), (∀ b ∈ l, Q b) → (∀ x ∈ acc, P x) →
      ∀ x ∈ l.foldl f acc, P x := by
  intro l
  induction l with
  | nil => intro acc _ hacc; simpa using hacc
  | cons b l ih =>
    intro acc hQ hacc
    simp only [List.foldl_cons]
    exact ih (f acc b) (fun b' hb' => hQ b' (List.mem_cons_of_mem _ hb'))
      (hf acc b (hQ b (List.mem_cons_self _ _)) hacc)

/-! ### Non-emptiness of normalized paths -/

theorem append_ne_empty_left {s : String} (t : String) (h : ¬s = "") :
    ¬(s ++ t) = "" := by
  intro he
  apply h
  apply String.ext
  have := congrArg String.data he
  rw [String.data_append] at this
  exact (List.append_eq_nil.mp this).1

theorem slash_append_ne_empty (t : String) : ¬("/" ++ t) = "" :=
  append_ne_empty_left t (by decide)

theorem mem_normStep {isAbs : Bool} {acc : List String} {s x : String}
    (hx : x ∈ normStep isAbs acc s) (hacc : ∀ y ∈ acc, ¬y = "") : ¬x = "" := by
  unfold normStep at hx
  by_cases h1 : (s == "" || s == ".") = true
  · rw [if_pos h1] at hx; exact hacc x hx
  · rw [if_neg h1] at hx
    have hs : ¬s = "" := by
      intro hs
      simp [hs] at h1
    by_cases h2 : (s == "..") = true
    · rw [if_pos h2] at hx
      rcases hacc' : acc.getLast? with _ | l
      · rw [hacc'] at hx
        by_cases h3 : isAbs = true
        · simp [h3] at hx; exact hacc x hx
        · simp [h3] at hx
          rcases hx with hx | hx
          · exact hacc x hx
          · rw [hx]; decide
      · rw [hacc'] at hx
        by_cases h3 : (l == "..") = true
        · simp [h3] at hx
          rcases hx with hx | hx
          · exact hacc x hx
          · rw [hx]; decide
        · simp [h3] at hx
          exact hacc x (List.dropLast_sublist acc |>.subset hx)
    · rw [if_neg h2] at hx
      rcases List.mem_append.mp hx with hx | hx
      · exact hacc x hx
      · rw [List.mem_singleton.mp hx]; exact hs

theorem mem_normSegs {isAbs : Bool} {segs : List String} {x : String}
    (hx : x ∈ normSegs isAbs segs) : ¬x = "" := by
  refine foldl_forall_mem (normStep isAbs) (fun y => ¬y = "") (fun _ => True)
    ?_ segs [] (fun _ _ => trivial) (by simp) x hx
  intro acc s _ hacc y hy
  exact mem_normStep hy hacc

theorem joinSegs_ne_empty :
    ∀ {l : List String}, (∀ x ∈ l, ¬x = "") → ¬l = [] → ¬joinSegs l = ""
  | [], h, hne => absurd rfl hne
  | [s], h, _ => by simpa [joinSegs] using h s (by simp)
  | s :: t :: rest, h, _ => by
    show ¬(s ++ "/" ++ joinSegs (t :: rest)) = ""
    exact append_ne_empty_left _
      (append_ne_empty_left _ (h s (by simp)))

theorem normalizeString_ne_empty (p : String) : ¬normalizeString p = "" := by
  unfold normalizeString
  by_cases h0 : (p == "") = true
  · rw [if_pos h0]; decide
  · rw [if_neg h0]
    simp only []
    by_cases hAbs : strStartsWith p "/" = true
    · simp only [hAbs, if_true]
      exact slash_append_ne_empty _
    · simp only [Bool.not_eq_true] at hAbs
      simp only [hAbs, Bool.false_eq_true, if_false]
      by_cases hseg : (normSegs false (splitSegs p)).isEmpty = true
      · simp only [hseg, if_true]; decide
      · simp only [hseg, Bool.false_eq_true, if_false]
        exact joinSegs_ne_empty (fun x hx => mem_normSegs hx)
          (by simpa [List.isEmpty_iff] using hseg)

theorem pathJoin_ne_empty (a b : String) : ¬pathJoin a b = "" := by
  unfold pathJoin
  by_cases h1 : (a == "") = true
  · rw [if_pos h1]
    by_cases h2 : (b == "") = true
    · rw [if_pos h2]; decide
    · rw [if_neg h2]; exact normalizeString_ne_empty b
  · rw [if_neg h1]
    by_cases h2 : (b == "") = true
    · rw [if_pos h2]; exact normalizeString_ne_empty a
    · rw [if_neg h2]; exact normalizeString_ne_empty _

/-! ### The dependency rewriter as an entry-wise map -/

theorem rewriteEntry_fst (cwd : String) (internalDeps : List String)
    (out ws : String) (p : String × DependencyEntry) :
    (rewriteEntry cwd internalDeps out ws p).1 = p.1 := by
  unfold rewriteEntry
  by_cases h : (listHas internalDeps p.1 && strStartsWith p.2.specifier "workspace:") = true
  · rw [if_pos h]
  · rw [if_neg h]

theorem recordKeys_map_entry {α : Type} (g : String × α → String × α)
    (hg : ∀ p, (g p).1 = p.1) :
    ∀ ds : Record α, recordKeys (ds.map g) = recordKeys ds := by
  intro ds
  simp only [recordKeys, List.map_map]
  exact List.map_congr_left (fun p _ => hg p)

theorem rewriteDeps_foldl_eq (cwd : String) (internalDeps : List String)
    (importerOutputDir workspacesDir : String) :
    ∀ (ds acc : Record DependencyEntry),
      (recordKeys ds).Nodup →
      (∀ k ∈ recordKeys ds, listHas (recordKeys acc) k = false) →
      ds.foldl (fun result p =>
        if listHas internalDeps p.1 && strStartsWith p.2.specifier "workspace:" then
          recordSet result p.1
            { specifier := "file:" ++ getRelativePath cwd importerOutputDir
                (pathJoin workspacesDir (safeName p.1))
              version := "link:" ++ getRelativePath cwd importerOutputDir
                (pathJoin workspacesDir (safeName p.1)) }
        else
          recordSet result p.1 p.2) acc =
      acc ++ ds.map (rewriteEntry cwd internalDeps importerOutputDir workspacesDir) := by
  intro ds
  induction ds with
  | nil => intro acc _ _; simp
  | cons p ds ih =>
    intro acc hnd hdisj
    have hp : listHas (recordKeys acc) p.1 = false :=
      hdisj p.1 (by simp [recordKeys])
    have hstep : ∀ v : DependencyEntry,
        recordSet acc p.1 v = acc ++ [(p.1, v)] := fun v =>
      recordSet_of_not_has v hp
    have hnd' : (recordKeys ds).Nodup := by
      simpa [recordKeys] using hnd.of_cons
    have hdisj' : ∀ k ∈ recordKeys ds,
        listHas (recordKeys (acc ++ [rewriteEntry cwd internalDeps
          importerOutputDir workspacesDir p])) k = false := by
      intro k hk
      rw [listHas_eq_false_iff, recordKeys_append]
      intro hmem
      rcases List.mem_append.mp hmem with hmem | hmem
      · exact absurd hmem (listHas_eq_false_iff.mp (hdisj k
          (by simp [recordKeys]; right; simpa [recordKeys] using hk)))
      · have hk1 : k = p.1 := by
          simpa [recordKeys, rewriteEntry_fst] using hmem
        have : p.1 ∉ recordKeys ds := by
          have := hnd
          simp only [recordKeys, List.map_cons, List.nodup_cons] at this
          simpa [recordKeys] using this.1
        exact this (hk1 ▸ hk)
    simp only [List.foldl_cons, List.map_cons]
    by_cases hc : (listHas internalDeps p.1 &&
        strStartsWith p.2.specifier "workspace:") = true
    · rw [if_pos hc, hstep]
      have harr : rewriteEntry cwd internalDeps importerOutputDir workspacesDir p =
          (p.1, { specifier := "file:" ++ getRelativePath cwd importerOutputDir
                    (pathJoin workspacesDir (safeName p.1))
                  version := "link:" ++ getRelativePath cwd importerOutputDir
                    (pathJoin workspacesDir (safeName p.1)) }) := by
        unfold rewriteEntry; rw [if_pos hc]
      rw [ih _ hnd' (harr ▸ hdisj')]
      rw [harr]
      simp
    · rw [if_neg hc, hstep]
      have harr : rewriteEntry cwd internalDeps importerOutputDir workspacesDir p = p := by
        unfold rewriteEntry; rw [if_neg hc]
      rw [ih _ hnd' (by rw [harr] at hdisj'; simpa using hdisj')]
      rw [harr]
      simp

/-- The specification form of `rewriteImporterDependencies` on a present
record with duplicate-free keys (the JS object invariant): it is the
entry-wise map of `rewriteEntry`. -/
theorem rewriteImporterDependencies_eq_map (cwd : String)
    (ds : Record DependencyEntry) (internalDeps : List String)
    (importerOutputDir workspacesDir : String)
    (hnd : (recordKeys ds).Nodup) :
    rewriteImporterDependencies cwd (some ds) internalDeps
        importerOutputDir workspacesDir =
      some (ds.map (rewriteEntry cwd internalDeps importerOutputDir workspacesDir)) := by
  simp only [rewriteImporterDependencies]
  rw [rewriteDeps_foldl_eq cwd internalDeps importerOutputDir workspacesDir ds []
    hnd (fun k _ => rfl)]
  simp

theorem startsWith_dot_of_dotSlash (r : String) : strStartsWith ("./" ++ r) "." = true := by
  unfold strStartsWith
  rw [String.data_append]
  show ['.'].isPrefixOf ('.' :: '/' :: r.data) = true
  simp [List.isPrefixOf]

/-! ### Claim theorems -/

/-- C1: a dependency entry is replaced by `rewriteImporterDependencies`
if and only if its name is in `internalDeps` and its specifier starts
with `"workspace:"`; a replaced entry becomes
`{ specifier := "file:" ++ rel, version := "link:" ++ rel }` with
`rel = getRelativePath newImporterDir (pathJoin workspacesDir (safeName name))`,
where `safeName` strips one leading `'@'` and turns each `'/'` into
`'-'`; every other entry (including internal names without the
`workspace:` specifier) passes through unchanged.  Stated for records
with duplicate-free keys, the JS object invariant. -/
theorem C1_rewrite_selectivity (cwd : String) (ds : Record DependencyEntry)
    (internalDeps : List String) (importerOutputDir workspacesDir : String)
    (hnd : (recordKeys ds).Nodup) :
    rewriteImporterDependencies cwd (some ds) internalDeps
        importerOutputDir workspacesDir =
      some (ds.map (fun p =>
        if listHas internalDeps p.1 && strStartsWith p.2.specifier "workspace:" then
          (p.1,
            { specifier := "file:" ++ getRelativePath cwd importerOutputDir
                (pathJoin workspacesDir (safeName p.1))
              version := "link:" ++ getRelativePath cwd importerOutputDir
                (pathJoin workspacesDir (safeName p.1)) })
        else p)) := by
  rw [rewriteImporterDependencies_eq_map cwd ds internalDeps
    importerOutputDir workspacesDir hnd]
  rfl

theorem C1_rewrite_selectivity_witness :
    (recordKeys [("@scope/b", DependencyEntry.mk "workspace:*" "link:../b"),
      ("lodash", DependencyEntry.mk "4.17.21" "4.17.21")]).Nodup ∧
    rewriteImporterDependencies "/" (some [("@scope/b", ⟨"workspace:*", "link:../b"⟩),
        ("lodash", ⟨"4.17.21", "4.17.21"⟩)]) ["@scope/b"] "/out" "/out/workspaces" =
      some ([("@scope/b", (⟨"workspace:*", "link:../b"⟩ : DependencyEntry)),
        ("lodash", ⟨"4.17.21", "4.17.21"⟩)].map (fun p =>
        if listHas ["@scope/b"] p.1 && strStartsWith p.2.specifier "workspace:" then
          (p.1,
            { specifier := "file:" ++ getRelativePath "/" "/out"
                (pathJoin "/out/workspaces" (safeName p.1))
              version := "link:" ++ getRelativePath "/" "/out"
                (pathJoin "/out/workspaces" (safeName p.1)) })
        else p)) :=
  ⟨by decide, C1_rewrite_selectivity "/" _ ["@scope/b"] "/out" "/out/workspaces"
    (by decide)⟩

/-- C3: a lockfile without an `importers` field is returned unchanged by
`pruneLockfile` (the source's `{ ...lockfile }` shallow copy is
value-equal to the input), for every target directory, internal
dependency set, registry and (possibly absent) relocation context. -/
theorem C3_no_importers_passthrough {U : Type} (cwd : String)
    (lf : PnpmLockfile U) (t : String) (ids : List String)
    (reg : WorkspaceRegistry) (rc : Option RewriteContext)
    (h : lf.importers = none) :
    pruneLockfile cwd lf t ids reg rc = lf := by
  unfold pruneLockfile
  rw [h]

theorem C3_no_importers_passthrough_witness :
    (PnpmLockfile.mk (LockVersion.str "9.0") none none [("settings", 0)]).importers = none ∧
    pruneLockfile "/" (PnpmLockfile.mk (LockVersion.str "9.0") none none [("settings", 0)]) "packages/a" ["@scope/b"] (fun _ => none) none =
      PnpmLockfile.mk (LockVersion.str "9.0") none none [("settings", (0 : Nat))] :=
  ⟨rfl, C3_no_importers_passthrough "/" _ "packages/a" ["@scope/b"]
    (fun _ => none) none rfl⟩

/-- C4: on a lockfile with importers, pruning preserves
`lockfileVersion` in exact value and constructor (string stays string,
number stays number), carries `packages` over unchanged (absent stays
absent), and keeps every other top-level key unchanged — the last under
the JS object invariant that the extra keys are distinct from the three
named fields. -/
theorem C4_top_level_frame {U : Type} (cwd : String) (lf : PnpmLockfile U)
    (t : String) (ids : List String) (reg : WorkspaceRegistry)
    (rc : Option RewriteContext) (imps : Record (ImporterData U))
    (h : lf.importers = some imps) :
    (pruneLockfile cwd lf t ids reg rc).lockfileVersion = lf.lockfileVersion ∧
    (pruneLockfile cwd lf t ids reg rc).packages = lf.packages ∧
    ((∀ x ∈ lf.extra,
        listHas ["lockfileVersion", "importers", "packages"] x.1 = false) →
      (pruneLockfile cwd lf t ids reg rc).extra = lf.extra) := by
  unfold pruneLockfile
  rw [h]
  refine ⟨rfl, rfl, ?_⟩
  intro hx
  simp only []
  rw [List.filter_eq_self.mpr ?_]
  intro a ha
  simp [hx a ha]

theorem C4_top_level_frame_witness :
    (PnpmLockfile.mk (LockVersion.num 6) (some []) (some [("pkg@1.0.0", 7)]) [("overrides", 3)]).importers = some [] ∧
    (∀ x ∈ ([("overrides", 3)] : Record Nat),
        listHas ["lockfileVersion", "importers", "packages"] x.1 = false) ∧
    (pruneLockfile "/" (PnpmLockfile.mk (LockVersion.num 6) (some []) (some [("pkg@1.0.0", 7)]) [("overrides", 3)]) "." [] (fun _ => none) none).lockfileVersion = LockVersion.num 6 ∧
    (pruneLockfile "/" (PnpmLockfile.mk (LockVersion.num 6) (some []) (some [("pkg@1.0.0", 7)]) [("overrides", 3)]) "." [] (fun _ => none) none).packages = some [("pkg@1.0.0", (7 : Nat))] ∧
    (pruneLockfile "/" (PnpmLockfile.mk (LockVersion.num 6) (some []) (some [("pkg@1.0.0", 7)]) [("overrides", 3)]) "." [] (fun _ => none) none).extra = [("overrides", (3 : Nat))] :=
  ⟨rfl, by decide,
    (C4_top_level_frame "/" _ "." [] (fun _ => none) none [] rfl).1,
    (C4_top_level_frame "/" _ "." [] (fun _ => none) none [] rfl).2.1,
    (C4_top_level_frame "/" _ "." [] (fun _ => none) none [] rfl).2.2 (by decide)⟩

/-- C6 counterexample: a present-but-unparsable lockfile produces the
very same signal (`none`) as an absent lockfile, so the caller cannot
tell the two cases apart — refuting the claimed distinguishability at a
concrete input. -/
theorem C6_counterexample :
    readPnpmLockfile (U := Unit) true "not a lockfile"
        (fun _ => Except.error "parse error") =
      readPnpmLockfile (U := Unit) false "not a lockfile"
        (fun _ => Except.error "parse error") ∧
    readPnpmLockfile (U := Unit) true "not a lockfile"
        (fun _ => Except.error "parse error") = none :=
  ⟨rfl, rfl⟩

/-- C6 (amended): `readPnpmLockfile` reports an absent lockfile as
`null` (not an error), and a present-but-unparsable lockfile is caught,
logged at debug level, and also reported as `null` — the return value
does not distinguish the two cases. -/
theorem C6_amended_null_on_both {U : Type} (content : String)
    (parseYaml : String → Except String (PnpmLockfile U)) (e : String)
    (h : parseYaml content = Except.error e) :
    readPnpmLockfile false content parseYaml = none ∧
    readPnpmLockfile true content parseYaml = none := by
  refine ⟨rfl, ?_⟩
  simp [readPnpmLockfile, h]

theorem C6_amended_null_on_both_witness :
    ((fun _ => Except.error "bad") "x" = (Except.error "bad" :
        Except String (PnpmLockfile Unit))) ∧
    readPnpmLockfile false "x"
        (fun _ => (Except.error "bad" : Except String (PnpmLockfile Unit))) = none ∧
    readPnpmLockfile true "x"
        (fun _ => (Except.error "bad" : Except String (PnpmLockfile Unit))) = none :=
  ⟨rfl, C6_amended_null_on_both "x" _ "bad" rfl⟩

/-- C7: `getRelativePath` always returns a string starting with the
character `'.'`: the raw `path.relative` result is kept when it already
starts with `'.'` and is prefixed with `"./"` otherwise; the function is
total, including when both directories coincide. -/
theorem C7_relative_ref_explicit (cwd a b : String) :
    strStartsWith (getRelativePath cwd a b) "." = true := by
  unfold getRelativePath
  by_cases h : strStartsWith (pathRelative cwd a b) "." = true
  · simp [h]
  · simp only [Bool.not_eq_true] at h
    simp only [h, Bool.not_false, if_true]
    exact startsWith_dot_of_dotSlash _

/-- C8: `rewriteImporterDependencies` returns an absent result exactly
when its input is absent: absent maps to absent, and every present
record — the empty one included, so a missing category is never
conflated with an empty one — maps to a present record whose key list,
set and iteration order alike, equals the input's (stated with the JS
duplicate-free-key invariant). -/
theorem C8_absent_and_key_order (cwd : String) (internalDeps : List String)
    (importerOutputDir workspacesDir : String) :
    rewriteImporterDependencies cwd none internalDeps
        importerOutputDir workspacesDir = none ∧
    ∀ ds : Record DependencyEntry, (recordKeys ds).Nodup →
      ∃ res, rewriteImporterDependencies cwd (some ds) internalDeps
          importerOutputDir workspacesDir = some res ∧
        recordKeys res = recordKeys ds := by
  refine ⟨rfl, ?_⟩
  intro ds hnd
  exact ⟨ds.map (rewriteEntry cwd internalDeps importerOutputDir workspacesDir),
    rewriteImporterDependencies_eq_map cwd ds internalDeps
      importerOutputDir workspacesDir hnd,
    recordKeys_map_entry _ (rewriteEntry_fst cwd internalDeps _ _) ds⟩

theorem C8_absent_and_key_order_witness :
    (recordKeys ([] : Record DependencyEntry)).Nodup ∧
    (recordKeys [("@scope/b", DependencyEntry.mk "workspace:*" "link:../b"),
      ("lodash", DependencyEntry.mk "4.17.21" "4.17.21")]).Nodup ∧
    rewriteImporterDependencies "/" none ["@scope/b"] "/out" "/out/workspaces" =
      none ∧
    (∃ res, rewriteImporterDependencies "/" (some ([] : Record DependencyEntry))
        ["@scope/b"] "/out" "/out/workspaces" = some res ∧
      recordKeys res = recordKeys ([] : Record DependencyEntry)) ∧
    (∃ res, rewriteImporterDependencies "/"
        (some [("@scope/b", ⟨"workspace:*", "link:../b"⟩),
          ("lodash", ⟨"4.17.21", "4.17.21"⟩)]) ["@scope/b"] "/out"
        "/out/workspaces" = some res ∧
      recordKeys res =
        recordKeys [("@scope/b", DependencyEntry.mk "workspace:*" "link:../b"),
          ("lodash", DependencyEntry.mk "4.17.21" "4.17.21")]) :=
  ⟨by decide, by decide,
    (C8_absent_and_key_order "/" ["@scope/b"] "/out" "/out/workspaces").1,
    (C8_absent_and_key_order "/" ["@scope/b"] "/out" "/out/workspaces").2 []
      (by decide),
    (C8_absent_and_key_order "/" ["@scope/b"] "/out" "/out/workspaces").2 _
      (by decide)⟩

/-! ### The importer loop without a relocation context -/

/-- With no relocation context, every emitted importer entry is one of
the input entries (same key, same value), and — when the target is not
the root — its key is never `"."`. -/
theorem mem_pruneImporters_none {U : Type} (cwd t : String) (ids : List String)
    (reg : WorkspaceRegistry) (imps : Record (ImporterData U)) :
    ∀ x ∈ pruneImporters cwd imps t ids reg none,
      x ∈ imps ∧ (¬t = "." → ¬x.1 = ".") := by
  simp only [pruneImporters, recordGet_nil, Option.getD_none]
  refine foldl_forall_mem _ (fun y => y ∈ imps ∧ (¬t = "." → ¬y.1 = "."))
    (fun b => b ∈ imps) ?_ imps [] (fun b hb => hb) (by simp)
  intro acc p hp hacc x hx
  by_cases h1 : (p.1 == "." && !(t == ".")) = true
  · rw [if_pos h1] at hx; exact hacc x hx
  · rw [if_neg h1] at hx
    by_cases h2 : listHas (buildRelevantDirs t ids reg) p.1 = true
    · rw [if_pos h2] at hx
      rcases mem_recordSet hx with hx | hx
      · exact hacc x hx
      · rw [hx]
        refine ⟨hp, ?_⟩
        intro hT hdot
        refine h1 (by simp [hT]; exact hdot)
    · rw [if_neg h2] at hx; exact hacc x hx

/-- C2 counterexample: with a relocation context, the target importer is
re-keyed to `"."`, so the root importer path does reappear in the pruned
importers even though `targetDir ≠ "."` — refuting the claim for the
relocation case at a concrete input. -/
theorem C2_counterexample :
    ¬("packages/a" = ".") ∧
    listHas (recordKeys ((pruneLockfile (U := Unit) "/"
      (PnpmLockfile.mk (LockVersion.str "9.0")
        (some [(".", ImporterData.mk none none none []),
          ("packages/a", ImporterData.mk none none none [])]) none [])
      "packages/a" [] (fun _ => none)
      (some (RewriteContext.mk "/out" "/out/workspaces"))).importers.getD []))
      "." = true := by decide

/-- C2 (amended): when no relocation context is supplied, the root
importer path `"."` is absent from the pruned importers whenever
`targetDir ≠ "."`; the original root importer entry is never carried
over in any case, but under relocation the target importer itself is
re-emitted under the key `"."`. -/
theorem C2_root_excluded {U : Type} (cwd : String) (lf : PnpmLockfile U)
    (t : String) (ids : List String) (reg : WorkspaceRegistry)
    (ht : ¬t = ".") :
    ∀ imps, (pruneLockfile cwd lf t ids reg none).importers = some imps →
      listHas (recordKeys imps) "." = false := by
  intro imps h
  rcases hlf : lf.importers with _ | orig
  · unfold pruneLockfile at h
    simp [hlf] at h
  · unfold pruneLockfile at h
    rw [hlf] at h
    simp only [Option.some.injEq] at h
    rw [← h, listHas_eq_false_iff]
    intro hmem
    obtain ⟨x, hx, hx1⟩ := mem_recordKeys_iff.mp hmem
    exact (mem_pruneImporters_none cwd t ids reg orig x hx).2 ht hx1

theorem C2_root_excluded_witness :
    ¬("packages/a" = ".") ∧
    listHas (recordKeys (pruneImporters (U := Unit) "/"
      [(".", ImporterData.mk none none none []),
        ("packages/a", ImporterData.mk none none none [])]
      "packages/a" [] (fun _ => none) none)) "." = false :=
  ⟨by decide,
    C2_root_excluded "/" (PnpmLockfile.mk (LockVersion.str "9.0")
      (some [(".", ImporterData.mk none none none []),
        ("packages/a", ImporterData.mk none none none [])]) none [])
      "packages/a" [] (fun _ => none) (by decide) _ rfl⟩

/-! ### Unregistered internal dependency names -/

theorem foldl_filter_of_skip {α : Type} (f : α → String → α) (name : String)
    (hsk : ∀ acc, f acc name = acc) :
    ∀ (ids : List String) (acc : α),
      ids.foldl f acc = (ids.filter (fun n => !(n == name))).foldl f acc := by
  intro ids
  induction ids with
  | nil => intro acc; rfl
  | cons n ids ih =>
    intro acc
    by_cases hn : n = name
    · subst hn
      simp only [List.foldl_cons, List.filter_cons, beq_self_eq_true,
        Bool.not_true, Bool.false_eq_true, if_false]
      rw [hsk]
      exact ih acc
    · have : ((fun m => !(m == name)) n) = true := by simp [hn]
      simp only [List.foldl_cons, List.filter_cons, this, if_true]
      exact ih (f acc n)

/-- C9 counterexample: with a relocation context, a dependency entry
whose name is an unregistered internal dependency and whose specifier
uses the `workspace:` protocol is rewritten, not passed through
unchanged: the rewriter keys off `internalDeps` membership and the
specifier prefix only, never registry resolvability. -/
theorem C9_counterexample :
    ((fun _ => none : WorkspaceRegistry) "x" = none) ∧
    recordGet (pruneImporters (U := Unit) "/"
      [("packages/a", ImporterData.mk
        (some [("x", DependencyEntry.mk "workspace:*" "link:../x")]) none none [])]
      "packages/a" ["x"] (fun _ => none)
      (some (RewriteContext.mk "/out" "/out/workspaces"))) "." =
      some (ImporterData.mk
        (some [("x", DependencyEntry.mk "file:./workspaces/x" "link:./workspaces/x")])
        none none []) ∧
    ¬(DependencyEntry.mk "file:./workspaces/x" "link:./workspaces/x" =
      DependencyEntry.mk "workspace:*" "link:../x") := by decide

/-- C9 (amended): pruning is total and degrades gracefully on an
internal dependency name with no registry entry: the name contributes
no directory to the relevant-dirs set and no entry to either relocation
table (each is the same as with that name filtered out of
`internalDeps`), and with no relocation context every retained importer
entry passes through unchanged.  (Under an active relocation context,
dependency entries bearing that name with `workspace:` specifiers are
still rewritten, like any other `internalDeps` member.) -/
theorem C9_unregistered_graceful {U : Type} (cwd t : String)
    (ids : List String) (reg : WorkspaceRegistry) (ctx : RewriteContext)
    (name : String) (hn : reg name = none) :
    buildRelevantDirs t ids reg =
      buildRelevantDirs t (ids.filter (fun n => !(n == name))) reg ∧
    buildOutputDirTable ctx t ids reg =
      buildOutputDirTable ctx t (ids.filter (fun n => !(n == name))) reg ∧
    buildNewPathTable t ids reg =
      buildNewPathTable t (ids.filter (fun n => !(n == name))) reg ∧
    ∀ (imps : Record (ImporterData U)),
      ∀ x ∈ pruneImporters cwd imps t ids reg none, x ∈ imps := by
  refine ⟨?_, ?_, ?_, ?_⟩
  · simp only [buildRelevantDirs]
    exact foldl_filter_of_skip _ name (fun acc => by simp [hn]) ids _
  · simp only [buildOutputDirTable]
    exact foldl_filter_of_skip _ name (fun acc => by simp [hn]) ids _
  · simp only [buildNewPathTable]
    exact foldl_filter_of_skip _ name (fun acc => by simp [hn]) ids _
  · intro imps x hx
    exact (mem_pruneImporters_none cwd t ids reg imps x hx).1

theorem C9_unregistered_graceful_witness :
    ((fun _ => none : WorkspaceRegistry) "x" = none) ∧
    buildRelevantDirs "packages/a" ["x"] (fun _ => none) =
      buildRelevantDirs "packages/a" (["x"].filter (fun n => !(n == "x")))
        (fun _ => none) ∧
    buildOutputDirTable (RewriteContext.mk "/out" "/out/workspaces")
        "packages/a" ["x"] (fun _ => none) =
      buildOutputDirTable (RewriteContext.mk "/out" "/out/workspaces")
        "packages/a" (["x"].filter (fun n => !(n == "x"))) (fun _ => none) ∧
    buildNewPathTable "packages/a" ["x"] (fun _ => none) =
      buildNewPathTable "packages/a" (["x"].filter (fun n => !(n == "x")))
        (fun _ => none) ∧
    ∀ (imps : Record (ImporterData Unit)),
      ∀ x ∈ pruneImporters "/" imps "packages/a" ["x"] (fun _ => none) none,
        x ∈ imps :=
  ⟨rfl, C9_unregistered_graceful "/" "packages/a" ["x"] (fun _ => none)
    (RewriteContext.mk "/out" "/out/workspaces") "x" rfl⟩

/-! ### Relocation tables and the importer loop under relocation -/

theorem table_keys_foldl (reg : WorkspaceRegistry) (f : String → String) :
    ∀ (ids : List String) (tbl : Record String) (dirs : List String),
      recordKeys tbl = dirs →
      recordKeys (ids.foldl (fun tbl depName =>
          match reg depName with
          | some pkg => recordSet tbl pkg.rootRelativeDir (f depName)
          | none => tbl) tbl) =
        ids.foldl (fun dirs depName =>
          match reg depName with
          | some pkg =>
            if listHas dirs pkg.rootRelativeDir then dirs
            else dirs ++ [pkg.rootRelativeDir]
          | none => dirs) dirs := by
  intro ids
  induction ids with
  | nil => intro tbl dirs h; exact h
  | cons n ids ih =>
    intro tbl dirs h
    simp only [List.foldl_cons]
    rcases hreg : reg n with _ | pkg
    · simp only [hreg]
      exact ih tbl dirs h
    · simp only [hreg]
      apply ih
      rw [recordKeys_recordSet, h]

theorem buildOutputDirTable_keys (ctx : RewriteContext) (t : String)
    (ids : List String) (reg : WorkspaceRegistry) :
    recordKeys (buildOutputDirTable ctx t ids reg) =
      buildRelevantDirs t ids reg := by
  simp only [buildOutputDirTable, buildRelevantDirs]
  apply table_keys_foldl reg
    (fun depName => pathJoin ctx.workspacesDir (safeName depName))
  rw [recordSet_of_not_has (r := ([] : Record String)) ctx.outputDir rfl]
  rfl

theorem buildNewPathTable_keys (t : String) (ids : List String)
    (reg : WorkspaceRegistry) :
    recordKeys (buildNewPathTable t ids reg) = buildRelevantDirs t ids reg := by
  simp only [buildNewPathTable, buildRelevantDirs]
  apply table_keys_foldl reg (fun depName => "workspaces/" ++ safeName depName)
  rw [recordSet_of_not_has (r := ([] : Record String)) "." rfl]
  rfl

theorem buildOutputDirTable_values (ctx : RewriteContext) (t : String)
    (ids : List String) (reg : WorkspaceRegistry) (h : ¬ctx.outputDir = "") :
    ∀ x ∈ buildOutputDirTable ctx t ids reg, ¬x.2 = "" := by
  simp only [buildOutputDirTable]
  refine foldl_forall_mem _ (fun x : String × String => ¬x.2 = "") (fun _ => True)
    ?_ ids _ (fun _ _ => trivial) ?_
  · intro acc n _ hacc x hx
    rcases hreg : reg n with _ | pkg
    · simp only [hreg] at hx
      exact hacc x hx
    · simp only [hreg] at hx
      rcases mem_recordSet hx with hx | hx
      · exact hacc x hx
      · rw [hx]
        exact pathJoin_ne_empty _ _
  · intro x hx
    rw [recordSet_of_not_has (r := ([] : Record String)) ctx.outputDir rfl] at hx
    simp only [List.nil_append, List.mem_singleton] at hx
    rw [hx]
    exact h

/-- C10 counterexample: with a relocation context whose `outputDir` is
the empty string (falsy in JS), the guard `rewriteContext &&
importerOutputDir` fails for the target importer, so the pass-through
branch runs under relocation and the emitted importer is the original
object, not a rewritten copy. -/
theorem C10_counterexample :
    recordGet (pruneImporters (U := Unit) "/"
      [("packages/a", ImporterData.mk
        (some [("x", DependencyEntry.mk "workspace:*" "link:../x")]) none none [])]
      "packages/a" ["x"] (fun _ => none)
      (some (RewriteContext.mk "" "/out/workspaces"))) "." =
      some (ImporterData.mk
        (some [("x", DependencyEntry.mk "workspace:*" "link:../x")]) none none []) ∧
    ¬rewriteImporter (U := Unit) "/"
      (ImporterData.mk
        (some [("x", DependencyEntry.mk "workspace:*" "link:../x")]) none none [])
      ["x"] "" "/out/workspaces" =
      ImporterData.mk
        (some [("x", DependencyEntry.mk "workspace:*" "link:../x")]) none none [] := by
  decide

/-- C10 (amended): the relevant-dirs set and both relocation tables are
built from the same keys, and — provided the relocation context's
`outputDir` is a non-empty string (so the JS truthiness guard cannot
fail) — every importer emitted under relocation is a rewritten shallow
copy of an input importer, stored under its relocation-table key. -/
theorem C10_relocation_always_rewrites {U : Type} (cwd : String)
    (imps : Record (ImporterData U)) (t : String) (ids : List String)
    (reg : WorkspaceRegistry) (ctx : RewriteContext)
    (hout : ¬ctx.outputDir = "") :
    recordKeys (buildOutputDirTable ctx t ids reg) = buildRelevantDirs t ids reg ∧
    recordKeys (buildNewPathTable t ids reg) = buildRelevantDirs t ids reg ∧
    ∀ x ∈ pruneImporters cwd imps t ids reg (some ctx),
      ∃ q ∈ imps, ∃ outDir,
        recordGet (buildNewPathTable t ids reg) q.1 = some x.1 ∧
        recordGet (buildOutputDirTable ctx t ids reg) q.1 = some outDir ∧
        x.2 = rewriteImporter cwd q.2 ids outDir ctx.workspacesDir := by
  refine ⟨buildOutputDirTable_keys ctx t ids reg, buildNewPathTable_keys t ids reg, ?_⟩
  simp only [pruneImporters]
  refine foldl_forall_mem _ (fun x : String × ImporterData U => ∃ q ∈ imps, ∃ outDir,
      recordGet (buildNewPathTable t ids reg) q.1 = some x.1 ∧
      recordGet (buildOutputDirTable ctx t ids reg) q.1 = some outDir ∧
      x.2 = rewriteImporter cwd q.2 ids outDir ctx.workspacesDir)
    (fun b => b ∈ imps) ?_ imps [] (fun b hb => hb) (by simp)
  intro acc p hp hacc x hx
  by_cases h1 : (p.1 == "." && !(t == ".")) = true
  · rw [if_pos h1] at hx
    exact hacc x hx
  · rw [if_neg h1] at hx
    by_cases h2 : listHas (buildRelevantDirs t ids reg) p.1 = true
    · rw [if_pos h2] at hx
      have hkO : listHas (recordKeys (buildOutputDirTable ctx t ids reg)) p.1 = true := by
        rw [buildOutputDirTable_keys]; exact h2
      have hkN : listHas (recordKeys (buildNewPathTable t ids reg)) p.1 = true := by
        rw [buildNewPathTable_keys]; exact h2
      obtain ⟨outDir, hgetO, hmemO⟩ := recordGet_of_has hkO
      obtain ⟨np, hgetN, _⟩ := recordGet_of_has hkN
      have hne : ¬outDir = "" := buildOutputDirTable_values ctx t ids reg hout _ hmemO
      have houtb : (outDir == "") = false := by simp [hne]
      simp only [hgetO, hgetN, Option.getD_some, houtb, Bool.false_eq_true,
        if_false] at hx
      rcases mem_recordSet hx with hx | hx
      · exact hacc x hx
      · refine ⟨p, hp, outDir, ?_, hgetO, ?_⟩
        · rw [hx]
          exact hgetN
        · rw [hx]
    · rw [if_neg h2] at hx
      exact hacc x hx

theorem C10_relocation_always_rewrites_witness :
    ¬((RewriteContext.mk "/out" "/out/workspaces").outputDir = "") ∧
    (recordKeys (buildOutputDirTable (RewriteContext.mk "/out" "/out/workspaces")
        "packages/a" ["@scope/b"]
        (fun n => if n = "@scope/b" then some (WorkspacePackage.mk "packages/b") else none)) =
      buildRelevantDirs "packages/a" ["@scope/b"]
        (fun n => if n = "@scope/b" then some (WorkspacePackage.mk "packages/b") else none) ∧
    recordKeys (buildNewPathTable "packages/a" ["@scope/b"]
        (fun n => if n = "@scope/b" then some (WorkspacePackage.mk "packages/b") else none)) =
      buildRelevantDirs "packages/a" ["@scope/b"]
        (fun n => if n = "@scope/b" then some (WorkspacePackage.mk "packages/b") else none) ∧
    ∀ x ∈ pruneImporters (U := Unit) "/"
        [("packages/a", ImporterData.mk
          (some [("@scope/b", DependencyEntry.mk "workspace:*" "link:../b")]) none none [])]
        "packages/a" ["@scope/b"]
        (fun n => if n = "@scope/b" then some (WorkspacePackage.mk "packages/b") else none)
        (some (RewriteContext.mk "/out" "/out/workspaces")),
      ∃ q ∈ [("packages/a", ImporterData.mk
          (some [("@scope/b", DependencyEntry.mk "workspace:*" "link:../b")]) none none [])],
        ∃ outDir,
          recordGet (buildNewPathTable "packages/a" ["@scope/b"]
            (fun n => if n = "@scope/b" then some (WorkspacePackage.mk "packages/b") else none))
            q.1 = some x.1 ∧
          recordGet (buildOutputDirTable (RewriteContext.mk "/out" "/out/workspaces")
            "packages/a" ["@scope/b"]
            (fun n => if n = "@scope/b" then some (WorkspacePackage.mk "packages/b") else none))
            q.1 = some outDir ∧
          x.2 = rewriteImporter "/" q.2 ["@scope/b"] outDir "/out/workspaces") :=
  ⟨by decide, C10_relocation_always_rewrites "/" _ "packages/a" ["@scope/b"] _ _
    (by decide)⟩

end LockfileVerif
